import Mathlib

/-!
Verification of the peer-connection lifecycle manager and the trunk-synchronized
content store of the defiads node, as implemented in `src/p2p_bitcoin.rs` and
`src/biadnet/main.rs`.

The Rust code is embedded shallowly:

* `KeepConnected` (the supervisory reconnection future) becomes a fuel-indexed
  transition function over an explicit state `KCState`; the external effects it
  performs (`dns_seed`, the random generator, `p2p.add_peer`) are supplied by an
  `Oracle` of result streams, and a fresh connection attempt is a `Session`
  whose poll outcome for the current maintenance pass is recorded in the
  session itself.  A fuel result of `none` means the corresponding Rust loop
  did not finish within that many iterations; a statement that the result is
  `none` for every fuel is how non-termination of the loop is expressed.
* `BitcoinDriver` (the `Downstream` implementation) becomes pure functions that
  return the list of `ContentStore` calls they perform together with the
  surviving store; `none` for the store models the `expect` panic that aborts
  the driver on a store error.
* `ChainDBTrunk` (the `Trunk` implementation) becomes functions over a model
  `ChainDBState` of the external chain database.

`ContentStore` itself lives in `src/store.rs`, which is not among the sources
here, and the chain database is an external collaborator; both are modelled
from the specification where noted.
-/

namespace Defiads

/-- Header identifier (a sha256d hash in the source). -/
abbrev Hash := Nat

/-- A network peer address (`SocketAddr` in the source). -/
abbrev Addr := Nat

/-- A block header; only its identifier matters to this core. -/
structure BlockHeader where
  id : Hash
  deriving DecidableEq

/-- A full block; opaque to this core (`block_connected` ignores it). -/
structure Block where
  id : Nat
  deriving DecidableEq

/-! ## Content Store (modelled from the spec) and the Chain Sync Driver -/

/-- A content entry anchored to a trunk position (spec section 3). -/
structure ContentEntry where
  contentId : Nat
  anchor : Hash
  deriving DecidableEq

/-- Modelled from the spec: the `ContentStore` state.  `src/store.rs` is not
among the sources here; per spec sections 3 and 4.4 the store holds content
entries anchored to trunk positions and the stack of tips established by
`add_header`.  `storageOk` models the health of the underlying persistence:
when it is false, store operations report the storage failure of spec
section 7. -/
structure ContentStore where
  storageOk : Bool
  tips : List BlockHeader
  entries : List ContentEntry
  deriving DecidableEq

/-- Modelled from the spec: `ContentStore.add_header` (spec section 4.4)
records that `header` is now at the current tip; a storage failure is the
error case. -/
def ContentStore.add_header (s : ContentStore) (header : BlockHeader) :
    Except String ContentStore :=
  if s.storageOk then Except.ok { s with tips := header :: s.tips }
  else Except.error "storage failure"

/-- Modelled from the spec: `ContentStore.unwind_tip` (spec section 4.4)
removes every content entry whose anchor matches the header's identifier and
restores the prior tip as current; idempotent on repeat delivery. -/
def ContentStore.unwind_tip (s : ContentStore) (header : BlockHeader) :
    Except String ContentStore :=
  if s.storageOk then
    Except.ok { s with
      tips := if s.tips.head? = some header then s.tips.tail else s.tips,
      entries := s.entries.filter (fun e => e.anchor != header.id) }
  else Except.error "storage failure"

/-- One call made by the Chain Sync Driver against the Content Store. -/
inductive StoreCall where
  | addHeaderCall : BlockHeader → StoreCall
  | unwindTipCall : BlockHeader → StoreCall
  deriving DecidableEq

/-- `BitcoinDriver::block_connected` (src/p2p_bitcoin.rs line 213): the body is
empty, so no store call is made and the store survives unchanged.  The first
component of the result is the trace of store calls, the second the surviving
store (`none` would model the `expect` panic). -/
def BitcoinDriver.block_connected (s : ContentStore) (block : Block) (height : Nat) :
    List StoreCall × Option ContentStore :=
  ([], some s)

/-- `BitcoinDriver::header_connected` (src/p2p_bitcoin.rs lines 215-217):
`self.store.add_header(block).expect("can not add header")`. -/
def BitcoinDriver.header_connected (s : ContentStore) (block : BlockHeader) (height : Nat) :
    List StoreCall × Option ContentStore :=
  ([StoreCall.addHeaderCall block],
    match s.add_header block with
    | Except.ok s1 => some s1
    | Except.error _ => none)

/-- `BitcoinDriver::block_disconnected` (src/p2p_bitcoin.rs lines 219-221):
`self.store.unwind_tip(header).expect("can not unwind tip")`. -/
def BitcoinDriver.block_disconnected (s : ContentStore) (header : BlockHeader) :
    List StoreCall × Option ContentStore :=
  ([StoreCall.unwindTipCall header],
    match s.unwind_tip header with
    | Except.ok s1 => some s1
    | Except.error _ => none)

/-! ## Chain Trunk View -/

/-- Modelled from the spec: the state of the external chain database (an
out-of-scope collaborator, spec section 1).  `trunk` lists the canonical chain
bottom-up, so the hash at list position `n` is the header connected at trunk
height `n`; `stored` is the database's header storage, keyed by hash, which
keeps every header ever accepted, side branches included. -/
structure ChainDBState where
  trunk : List Hash
  stored : List (Hash × BlockHeader)
  deriving DecidableEq

/-- Position of a hash in a trunk list (first occurrence). -/
def trunkPos : List Hash → Hash → Option Nat
  | [], _ => none
  | x :: rest, h => if x = h then some 0 else Option.map (fun n => n + 1) (trunkPos rest h)

/-- Modelled from the spec: `ChainDB::pos_on_trunk` of the external chain
database returns the trunk height of a hash, or `none` when the hash is not on
the canonical chain. -/
def ChainDBState.pos_on_trunk (db : ChainDBState) (h : Hash) : Option Nat :=
  trunkPos db.trunk h

/-- Modelled from the spec: `ChainDB::get_header` of the external chain
database looks a header up in its storage, which is independent of trunk
membership. -/
def ChainDBState.get_header_db (db : ChainDBState) (h : Hash) : Option BlockHeader :=
  List.lookup h db.stored

/-- `ChainDBTrunk::is_on_trunk` (src/p2p_bitcoin.rs lines 229-231):
`self.chaindb.read().unwrap().pos_on_trunk(block_hash).is_some()`. -/
def ChainDBTrunk.is_on_trunk (db : ChainDBState) (block_hash : Hash) : Bool :=
  (db.pos_on_trunk block_hash).isSome

/-- `ChainDBTrunk::get_header` (src/p2p_bitcoin.rs lines 233-238): returns the
cached stored header when the database has one, else `None`. -/
def ChainDBTrunk.get_header (db : ChainDBState) (block_hash : Hash) : Option BlockHeader :=
  match db.get_header_db block_hash with
  | some cached => some cached
  | none => none

/-- `ChainDBTrunk::get_height` (src/p2p_bitcoin.rs lines 240-242):
`self.chaindb.read().unwrap().pos_on_trunk(block_hash)`. -/
def ChainDBTrunk.get_height (db : ChainDBState) (block_hash : Hash) : Option Nat :=
  db.pos_on_trunk block_hash

/-- A hash found at trunk position `n` is the entry connected at height `n`. -/
theorem trunkPos_get {l : List Hash} {h : Hash} {n : Nat}
    (he : trunkPos l h = some n) : l.get? n = some h := by
  induction l generalizing n with
  | nil => simp [trunkPos] at he
  | cons x rest ih =>
    by_cases hx : x = h
    · simp [trunkPos, hx] at he
      subst he
      simp [hx]
    · simp [trunkPos, hx] at he
      obtain ⟨m, hm, hmn⟩ := he
      subst hmn
      simpa using ih hm

/-! ## Claims C2, C4, C5, C8, C10 -/

/-- C2: for every header `h`, the Chain Sync Driver's `block_disconnected h`
invokes `ContentStore.unwind_tip` exactly once, passing exactly `h`, and the
entries removed by the call are exactly those anchored to `h`'s identifier. -/
theorem c2_block_disconnected_unwinds_once (s : ContentStore) (h : BlockHeader) :
    (BitcoinDriver.block_disconnected s h).1 = [StoreCall.unwindTipCall h] ∧
    ∀ s1, (BitcoinDriver.block_disconnected s h).2 = some s1 →
      s1.entries = s.entries.filter (fun e => e.anchor != h.id) := by
  refine ⟨rfl, ?_⟩
  intro s1 hs1
  unfold BitcoinDriver.block_disconnected ContentStore.unwind_tip at hs1
  by_cases hok : s.storageOk
  · simp only [hok, if_true] at hs1
    obtain rfl := Option.some.inj hs1
    rfl
  · simp [hok] at hs1

/-- C2 witness: the theorem applied at a concrete store and header. -/
theorem c2_block_disconnected_unwinds_once_witness :
    (BitcoinDriver.block_disconnected
        { storageOk := true, tips := [{ id := 2 }],
          entries := [{ contentId := 0, anchor := 2 }, { contentId := 1, anchor := 3 }] }
        { id := 2 }).1 = [StoreCall.unwindTipCall { id := 2 }] ∧
    ∀ s1, (BitcoinDriver.block_disconnected
        { storageOk := true, tips := [{ id := 2 }],
          entries := [{ contentId := 0, anchor := 2 }, { contentId := 1, anchor := 3 }] }
        { id := 2 }).2 = some s1 →
      s1.entries = List.filter (fun e => e.anchor != 2)
        [{ contentId := 0, anchor := 2 }, { contentId := 1, anchor := 3 }] :=
  c2_block_disconnected_unwinds_once
    { storageOk := true, tips := [{ id := 2 }],
      entries := [{ contentId := 0, anchor := 2 }, { contentId := 1, anchor := 3 }] }
    { id := 2 }

/-- C4: for every header `h` and height, the driver's `header_connected`
invokes `ContentStore.add_header` exactly once with `h`; when the store
reports a storage failure the driver aborts (the `expect` panic, modelled by
`none`) instead of silently skipping the update, and any surviving store has
actually recorded the new tip. -/
theorem c4_header_connected_adds_once_or_aborts (s : ContentStore) (h : BlockHeader)
    (height : Nat) :
    (BitcoinDriver.header_connected s h height).1 = [StoreCall.addHeaderCall h] ∧
    (s.storageOk = false → (BitcoinDriver.header_connected s h height).2 = none) ∧
    ∀ s1, (BitcoinDriver.header_connected s h height).2 = some s1 →
      s1 = { s with tips := h :: s.tips } := by
  refine ⟨rfl, ?_, ?_⟩
  · intro hbad
    unfold BitcoinDriver.header_connected ContentStore.add_header
    simp [hbad]
  · intro s1 hs1
    unfold BitcoinDriver.header_connected ContentStore.add_header at hs1
    by_cases hok : s.storageOk
    · simp only [hok, if_true] at hs1
      rw [show ({ s with tips := h :: s.tips } : ContentStore)
            = { storageOk := s.storageOk, tips := h :: s.tips, entries := s.entries } from rfl,
          hok]
      exact (Option.some.inj hs1).symm
    · simp [hok] at hs1

/-- C4 witness: the theorem applied at a store whose persistence is failing,
the interesting case — the driver aborts rather than continuing. -/
theorem c4_header_connected_adds_once_or_aborts_witness :
    (BitcoinDriver.header_connected { storageOk := false, tips := [], entries := [] }
        { id := 1 } 0).1 = [StoreCall.addHeaderCall { id := 1 }] ∧
    (ContentStore.storageOk { storageOk := false, tips := [], entries := [] } = false →
      (BitcoinDriver.header_connected { storageOk := false, tips := [], entries := [] }
        { id := 1 } 0).2 = none) ∧
    ∀ s1, (BitcoinDriver.header_connected { storageOk := false, tips := [], entries := [] }
        { id := 1 } 0).2 = some s1 →
      s1 = { storageOk := false, tips := [{ id := 1 }], entries := [] } :=
  c4_header_connected_adds_once_or_aborts
    { storageOk := false, tips := [], entries := [] } { id := 1 } 0

/-- C5: against a single chain-database state, `is_on_trunk h` is true exactly
when `get_height h` is defined, and the height returned is the trunk height at
which `h` was connected (the trunk entry at that height is `h`). -/
theorem c5_trunk_view_consistent (db : ChainDBState) (h : Hash) :
    (ChainDBTrunk.is_on_trunk db h = true ↔ ∃ n, ChainDBTrunk.get_height db h = some n) ∧
    ∀ n, ChainDBTrunk.get_height db h = some n → db.trunk.get? n = some h := by
  constructor
  · simp [ChainDBTrunk.is_on_trunk, ChainDBTrunk.get_height, Option.isSome_iff_exists]
  · intro n hn
    exact trunkPos_get hn

/-- C5 witness: the theorem applied at a concrete two-header trunk. -/
theorem c5_trunk_view_consistent_witness :
    (ChainDBTrunk.is_on_trunk
        { trunk := [4, 5], stored := [(4, { id := 4 }), (5, { id := 5 })] } 5 = true ↔
      ∃ n, ChainDBTrunk.get_height
        { trunk := [4, 5], stored := [(4, { id := 4 }), (5, { id := 5 })] } 5 = some n) ∧
    ∀ n, ChainDBTrunk.get_height
        { trunk := [4, 5], stored := [(4, { id := 4 }), (5, { id := 5 })] } 5 = some n →
      List.get? [4, 5] n = some 5 :=
  c5_trunk_view_consistent
    { trunk := [4, 5], stored := [(4, { id := 4 }), (5, { id := 5 })] } 5

/-- C8: for every block and height, the driver's `block_connected` is a no-op:
it performs no Content Store call and leaves the store unchanged. -/
theorem c8_block_connected_noop (s : ContentStore) (b : Block) (height : Nat) :
    BitcoinDriver.block_connected s b height = ([], some s) := rfl

/-- C10: header lookup is independent of trunk membership: in a database state
storing hash 2 on a side branch (off the one-element trunk), `get_header`
returns the stored header although `is_on_trunk` is false. -/
theorem c10_get_header_ignores_trunk :
    ChainDBTrunk.get_header
        { trunk := [1], stored := [(1, { id := 1 }), (2, { id := 2 })] } 2
      = some { id := 2 } ∧
    ChainDBTrunk.is_on_trunk
        { trunk := [1], stored := [(1, { id := 1 }), (2, { id := 2 })] } 2 = false := by
  decide

/-! ## Peer Connection Manager (`KeepConnected`, src/p2p_bitcoin.rs lines 126-204) -/

/-- The outcome that polling one peer-session future yields during the current
maintenance pass: still pending, resolved with the peer's address (graceful
end), or resolved with an error. -/
inductive SessionOutcome where
  | pending : SessionOutcome
  | ready : Addr → SessionOutcome
  | failed : Nat → SessionOutcome
  deriving DecidableEq

/-- One owned peer session: the address the connection attempt was dispatched
to (`PeerSource::Outgoing(addr)`) and its poll outcome for this pass.  A fresh
attempt created by `p2p.add_peer` polls pending. -/
structure Session where
  addr : Addr
  outcome : SessionOutcome
  deriving DecidableEq

/-- The mutable state of the `KeepConnected` future: target pool size, the
owned sessions, the cached DNS result list, and counters into the oracle
streams.  The source's `network`, `p2p` and (declared but unused) `earlier`
fields carry no state relevant here. -/
structure KCState where
  minConnections : Nat
  connections : List Session
  dns : List Addr
  seedCount : Nat
  rngCount : Nat
  deriving DecidableEq

/-- External effect streams: the `n`-th `dns_seed` query result, and the
`n`-th value drawn from the thread random generator. -/
structure Oracle where
  seed : Nat → List Addr
  rng : Nat → Nat

/-- Index selection from the source:
`(rng.next_u64() as usize) % self.dns.len()`; the generator output is a 64-bit
machine integer, hence the explicit wrap modulo 2 to the 64. -/
def selectIdx (r len : Nat) : Nat := r % 2 ^ 64 % len

theorem selectIdx_lt (r len : Nat) (h : 0 < len) : selectIdx r len < len :=
  Nat.mod_lt _ h

/-- The DNS refresh step of `dns_lookup` (src/p2p_bitcoin.rs lines 191-193):
`if self.dns.len() == 0 { self.dns = dns_seed(self.network); }`. -/
def refreshDns (O : Oracle) (st : KCState) : KCState :=
  if st.dns.length = 0 then
    { st with dns := O.seed st.seedCount, seedCount := st.seedCount + 1 }
  else st

/-- Dispatching one connection attempt
(`self.connections.push(self.p2p.add_peer(PeerSource::Outgoing(addr)))`,
src/p2p_bitcoin.rs line 197): the new session starts out pending. -/
def pushPeer (st : KCState) (a : Addr) : KCState :=
  { st with
    rngCount := st.rngCount + 1
    connections := st.connections ++ [{ addr := a, outcome := SessionOutcome.pending }] }

/-- The random pick of src/p2p_bitcoin.rs line 196:
`self.dns[(rng.next_u64() as usize) % self.dns.len()]`. -/
def pickAddr (O : Oracle) (st : KCState) (h : 0 < st.dns.length) : Addr :=
  st.dns.get ⟨selectIdx (O.rng st.rngCount) st.dns.length, selectIdx_lt _ _ h⟩

/-- `KeepConnected::dns_lookup` (src/p2p_bitcoin.rs lines 189-200), with fuel
bounding the number of iterations of its `while` loop; `none` means the loop
did not exit within that many iterations. -/
def KeepConnected.dns_lookup (O : Oracle) : Nat → KCState → Option KCState
  | 0, st =>
    if st.connections.length < st.minConnections then none else some st
  | fuel + 1, st =>
    if st.connections.length < st.minConnections then
      if h : 0 < (refreshDns O st).dns.length then
        KeepConnected.dns_lookup O fuel
          (pushPeer (refreshDns O st) (pickAddr O (refreshDns O st) h))
      else
        KeepConnected.dns_lookup O fuel (refreshDns O st)
    else some st

/-- `KeepConnected::peers_from_db` (src/p2p_bitcoin.rs lines 185-187): the body
is a TODO, so the step is a no-op. -/
def KeepConnected.peers_from_db (st : KCState) : KCState := st

/-- What `KeepConnected::poll` returns: `Ok(Async::Ready(()))` or
`Ok(Async::Pending)` (its error type `Never` is uninhabited). -/
inductive PollResult where
  | ready : PollResult
  | pending : PollResult
  deriving DecidableEq

/-- The finished-session search of src/p2p_bitcoin.rs lines 161-175: the
enumerate/filter_map/next chain lazily returns the first session whose poll is
not pending, with its index. -/
def findFinished : List Session → Option (Nat × Session)
  | [] => none
  | s :: rest =>
    match s.outcome with
    | SessionOutcome.pending => Option.map (fun p => (p.1 + 1, p.2)) (findFinished rest)
    | _ => some (0, s)

/-- `KeepConnected::poll` (src/p2p_bitcoin.rs lines 148-181), with fuel
bounding the iterations of its outer `loop`; the same fuel bounds each inner
`dns_lookup`.  Besides the state, the accumulator records the sessions removed
by `self.connections.remove(i)` so that removals are observable. -/
def KeepConnected.poll (O : Oracle) :
    Nat → KCState → List Session → Option (PollResult × KCState × List Session)
  | 0, _, _ => none
  | fuel + 1, st, removed =>
    match KeepConnected.dns_lookup O (fuel + 1) (KeepConnected.peers_from_db st) with
    | none => none
    | some st1 =>
      if st1.connections.length = 0 then some (PollResult.ready, st1, removed)
      else
        match findFinished st1.connections with
        | none => some (PollResult.pending, st1, removed)
        | some (i, s) =>
          KeepConnected.poll O fuel { st1 with connections := st1.connections.eraseIdx i }
            (removed ++ [s])

/-- A session whose poll outcome is not pending. -/
def isResolved (s : Session) : Bool :=
  match s.outcome with
  | SessionOutcome.pending => false
  | _ => true

@[simp] theorem refreshDns_connections (O : Oracle) (st : KCState) :
    (refreshDns O st).connections = st.connections := by
  unfold refreshDns
  split <;> rfl

@[simp] theorem refreshDns_minConnections (O : Oracle) (st : KCState) :
    (refreshDns O st).minConnections = st.minConnections := by
  unfold refreshDns
  split <;> rfl

@[simp] theorem pushPeer_connections (st : KCState) (a : Addr) :
    (pushPeer st a).connections
      = st.connections ++ [{ addr := a, outcome := SessionOutcome.pending }] := rfl

@[simp] theorem pushPeer_minConnections (st : KCState) (a : Addr) :
    (pushPeer st a).minConnections = st.minConnections := rfl

@[simp] theorem pushPeer_dns (st : KCState) (a : Addr) :
    (pushPeer st a).dns = st.dns := rfl

theorem refreshDns_dns (O : Oracle) (st : KCState) :
    (refreshDns O st).dns = st.dns ∨ (refreshDns O st).dns = O.seed st.seedCount := by
  unfold refreshDns
  split
  · right; rfl
  · left; rfl

theorem pickAddr_mem (O : Oracle) (st : KCState) (h : 0 < st.dns.length) :
    pickAddr O st h ∈ st.dns := by
  unfold pickAddr
  exact List.get_mem _ _ _

/-- Structural facts about one growth pass: the target is unchanged, the loop
only exits once the pool has reached the target, and the pass only appends
fresh pending sessions whose addresses come from the cached DNS list or from
some DNS query result. -/
theorem dns_lookup_spec (O : Oracle) :
    ∀ fuel st st', KeepConnected.dns_lookup O fuel st = some st' →
      st'.minConnections = st.minConnections ∧
      st.minConnections ≤ st'.connections.length ∧
      ∃ adds, st'.connections = st.connections ++ adds ∧
        ∀ a ∈ adds, a.outcome = SessionOutcome.pending ∧
          (a.addr ∈ st.dns ∨ ∃ n, a.addr ∈ O.seed n) := by
  intro fuel
  induction fuel with
  | zero =>
    intro st st' h
    by_cases hg : st.connections.length < st.minConnections
    · simp [KeepConnected.dns_lookup, hg] at h
    · simp only [KeepConnected.dns_lookup, hg, if_false] at h
      obtain rfl := Option.some.inj h
      exact ⟨rfl, Nat.le_of_not_lt hg, [], by simp, by simp⟩
  | succ fuel ih =>
    intro st st' h
    by_cases hg : st.connections.length < st.minConnections
    · simp only [KeepConnected.dns_lookup, hg, if_true] at h
      by_cases hd : 0 < (refreshDns O st).dns.length
      · rw [dif_pos hd] at h
        obtain ⟨hmin, hlen, adds, hconn, hadds⟩ := ih _ _ h
        have hdns := refreshDns_dns O st
        refine ⟨by simpa using hmin, by simpa using hlen,
          { addr := pickAddr O (refreshDns O st) hd, outcome := SessionOutcome.pending } :: adds,
          ?_, ?_⟩
        · rw [hconn]
          simp
        · intro a ha
          cases ha with
          | head =>
            refine ⟨rfl, ?_⟩
            have hm : pickAddr O (refreshDns O st) hd ∈ (refreshDns O st).dns :=
              pickAddr_mem O (refreshDns O st) hd
            cases hdns with
            | inl he => rw [he] at hm; exact Or.inl hm
            | inr he => rw [he] at hm; exact Or.inr ⟨st.seedCount, hm⟩
          | tail _ hmem =>
            obtain ⟨hp, hsrc⟩ := hadds a hmem
            refine ⟨hp, ?_⟩
            cases hsrc with
            | inl hin =>
              rw [pushPeer_dns] at hin
              cases hdns with
              | inl he => rw [he] at hin; exact Or.inl hin
              | inr he => rw [he] at hin; exact Or.inr ⟨st.seedCount, hin⟩
            | inr hin => exact Or.inr hin
      · rw [dif_neg hd] at h
        obtain ⟨hmin, hlen, adds, hconn, hadds⟩ := ih _ _ h
        have hdns := refreshDns_dns O st
        refine ⟨by simpa using hmin, by simpa using hlen, adds, by simpa using hconn, ?_⟩
        intro a ha
        obtain ⟨hp, hsrc⟩ := hadds a ha
        refine ⟨hp, ?_⟩
        cases hsrc with
        | inl hin =>
          cases hdns with
          | inl he => rw [he] at hin; exact Or.inl hin
          | inr he => rw [he] at hin; exact Or.inr ⟨st.seedCount, hin⟩
        | inr hin => exact Or.inr hin
    · simp only [KeepConnected.dns_lookup, hg, if_false] at h
      obtain rfl := Option.some.inj h
      exact ⟨rfl, Nat.le_of_not_lt hg, [], by simp, by simp⟩

/-- When every DNS query returns at least one address, the growth loop exits
as soon as the deficit has been covered: fuel equal to the deficit suffices. -/
theorem dns_lookup_terminates (O : Oracle) (hO : ∀ n, O.seed n ≠ []) :
    ∀ fuel st, st.minConnections ≤ st.connections.length + fuel →
      ∃ st', KeepConnected.dns_lookup O fuel st = some st' := by
  intro fuel
  induction fuel with
  | zero =>
    intro st hb
    have hg : ¬ st.connections.length < st.minConnections := by omega
    exact ⟨st, by simp [KeepConnected.dns_lookup, hg]⟩
  | succ fuel ih =>
    intro st hb
    by_cases hg : st.connections.length < st.minConnections
    · have hd : 0 < (refreshDns O st).dns.length := by
        unfold refreshDns
        split
        · cases hseed : O.seed st.seedCount with
          | nil => exact absurd hseed (hO st.seedCount)
          | cons a t => simp [hseed]
        · omega
      obtain ⟨st', h'⟩ := ih (pushPeer (refreshDns O st) (pickAddr O (refreshDns O st) hd))
        (by simp; omega)
      refine ⟨st', ?_⟩
      simp only [KeepConnected.dns_lookup, hg, if_true]
      rw [dif_pos hd]
      exact h'
    · exact ⟨st, by simp [KeepConnected.dns_lookup, hg]⟩

/-- When every DNS query comes back empty and the pool is below target, one
iteration of the growth loop changes nothing that matters and the loop never
exits: `dns_lookup` diverges (is `none` at every fuel). -/
theorem dns_lookup_empty_seed_none (O : Oracle) (hO : ∀ n, O.seed n = []) :
    ∀ fuel st, st.dns = [] → st.connections.length < st.minConnections →
      KeepConnected.dns_lookup O fuel st = none := by
  intro fuel
  induction fuel with
  | zero =>
    intro st hdns hg
    simp [KeepConnected.dns_lookup, hg]
  | succ fuel ih =>
    intro st hdns hg
    have hrd : (refreshDns O st).dns = [] := by
      simp [refreshDns, hdns, hO]
    have hd : ¬ 0 < (refreshDns O st).dns.length := by
      rw [hrd]
      simp
    simp only [KeepConnected.dns_lookup, hg, if_true]
    rw [dif_neg hd]
    exact ih (refreshDns O st) hrd (by simpa using hg)

/-- The oracle of a run in which the local peer database stays empty (the
source's `peers_from_db` is a TODO and yields nothing) and every `dns_seed`
query returns no addresses. -/
def emptyOracle : Oracle := { seed := fun _ => [], rng := fun _ => 0 }

/-- Start state of the failing run: empty pool, empty DNS cache, and the
`min_connections = 3` target that `BitcoinAdaptor::init` passes. -/
def exhaustedStart : KCState :=
  { minConnections := 3, connections := [], dns := [], seedCount := 0, rngCount := 0 }

/-- C1, settled as a code bug: when both address sources yield nothing and the
pool is empty, `KeepConnected::poll` does NOT terminate with the fatal
"no more peers" Ready outcome.  Its first `dns_lookup` re-queries DNS on every
iteration of the `while` loop and never stops growing the round, so the poll
returns `none` at every fuel — the busy loop never reaches the
`connections.len() == 0` check, whose Ready return is unreachable for any
positive `min_connections`. -/
theorem c1_exhaustion_loops_forever :
    ∀ fuel removed, KeepConnected.poll emptyOracle fuel exhaustedStart removed = none := by
  intro fuel removed
  cases fuel with
  | zero => rfl
  | succ fuel =>
    have h := dns_lookup_empty_seed_none emptyOracle (fun _ => rfl) (fuel + 1)
      (KeepConnected.peers_from_db exhaustedStart) rfl (by decide)
    simp [KeepConnected.poll, h]

/-- C3: whenever the DNS source returns at least one address on every query,
a single growth pass with fuel covering the deficit terminates and leaves the
pool with at least `min_connections` sessions. -/
theorem c3_growth_reaches_min (O : Oracle) (fuel : Nat) (st : KCState)
    (hO : ∀ n, O.seed n ≠ []) (hfuel : st.minConnections ≤ st.connections.length + fuel) :
    ∃ st', KeepConnected.dns_lookup O fuel st = some st' ∧
      st.minConnections ≤ st'.connections.length := by
  obtain ⟨st', h'⟩ := dns_lookup_terminates O hO fuel st hfuel
  obtain ⟨_, hlen, _⟩ := dns_lookup_spec O fuel st st' h'
  exact ⟨st', h', hlen⟩

/-- The oracle of a run in which every DNS query returns the single address 7. -/
def oracle7 : Oracle := { seed := fun _ => [7], rng := fun _ => 0 }

/-- Empty pool with target 2: the growth pass must dispatch two attempts. -/
def st7 : KCState :=
  { minConnections := 2, connections := [], dns := [], seedCount := 0, rngCount := 0 }

/-- C3 witness: the theorem applied at the concrete one-address oracle. -/
theorem c3_growth_reaches_min_witness :
    ∃ st', KeepConnected.dns_lookup oracle7 3
        { minConnections := 3, connections := [], dns := [], seedCount := 0, rngCount := 0 }
        = some st' ∧
      KCState.minConnections
        { minConnections := 3, connections := [], dns := [], seedCount := 0, rngCount := 0 }
        ≤ st'.connections.length :=
  c3_growth_reaches_min oracle7 3
    { minConnections := 3, connections := [], dns := [], seedCount := 0, rngCount := 0 }
    (fun _ => List.cons_ne_nil 7 []) (by decide)

/-- C7 counterexample: with DNS returning the single address 7 and an empty
pool with target 2, one growth pass dispatches TWO connection attempts to the
same address 7 — the random pick is with replacement, so a single pass is not
unique per address. -/
theorem c7_counterexample_same_addr_twice :
    Option.map (fun st => st.connections.map Session.addr)
      (KeepConnected.dns_lookup oracle7 2 st7) = some [7, 7] := by
  decide

/-- C7 (amended): within one growth pass each dispatched connection attempt
targets an address drawn from the DNS source (the cached list or some query
result), but the draw is with replacement, so the same address may receive
several attempts in a single pass. -/
theorem c7_attempts_drawn_from_dns (O : Oracle) (fuel : Nat) (st st' : KCState)
    (h : KeepConnected.dns_lookup O fuel st = some st') :
    ∀ s ∈ st'.connections,
      s ∈ st.connections ∨ s.addr ∈ st.dns ∨ ∃ n, s.addr ∈ O.seed n := by
  obtain ⟨-, -, adds, hconn, hadds⟩ := dns_lookup_spec O fuel st st' h
  intro s hs
  rw [hconn, List.mem_append] at hs
  cases hs with
  | inl h1 => exact Or.inl h1
  | inr h2 => exact Or.inr (hadds s h2).2

/-- C7 amended-claim witness: the theorem applied at the concrete pass that
dispatches [7, 7], instantiated at the first of the two attempts. -/
theorem c7_attempts_drawn_from_dns_witness :
    ({ addr := 7, outcome := SessionOutcome.pending } : Session) ∈ st7.connections ∨
    (7 : Addr) ∈ st7.dns ∨ ∃ n, (7 : Addr) ∈ oracle7.seed n :=
  c7_attempts_drawn_from_dns oracle7 2 st7
    { minConnections := 2
      connections := [{ addr := 7, outcome := SessionOutcome.pending },
                      { addr := 7, outcome := SessionOutcome.pending }]
      dns := [7]
      seedCount := 1
      rngCount := 2 } (by decide)
    { addr := 7, outcome := SessionOutcome.pending } (by decide)

/-- If the finished-session search returns nothing, every owned session polled
pending. -/
theorem findFinished_eq_none {l : List Session} (h : findFinished l = none) :
    ∀ s ∈ l, s.outcome = SessionOutcome.pending := by
  induction l with
  | nil =>
    intro s hs
    cases hs
  | cons a t ih =>
    intro s hs
    cases hout : a.outcome with
    | pending =>
      simp only [findFinished, hout, Option.map_eq_none'] at h
      cases hs with
      | head => exact hout
      | tail _ hmem => exact ih h s hmem
    | ready x => simp [findFinished, hout] at h
    | failed e => simp [findFinished, hout] at h

/-- The finished-session search returns the first resolved session together
with its index; removing that index is removing exactly that session. -/
theorem findFinished_eq_some {l : List Session} {i : Nat} {s : Session}
    (h : findFinished l = some (i, s)) :
    isResolved s = true ∧ List.Perm l (s :: l.eraseIdx i) := by
  induction l generalizing i with
  | nil => simp [findFinished] at h
  | cons a t ih =>
    cases hout : a.outcome with
    | pending =>
      simp only [findFinished, hout, Option.map_eq_some'] at h
      obtain ⟨⟨j, s2⟩, hft, heq⟩ := h
      injection heq with hi hs
      subst hi
      subst hs
      obtain ⟨hres, hperm⟩ := ih hft
      exact ⟨hres, (hperm.cons a).trans (List.Perm.swap s2 a (t.eraseIdx j))⟩
    | ready x =>
      simp only [findFinished, hout, Option.some.injEq, Prod.mk.injEq] at h
      obtain ⟨rfl, rfl⟩ := h
      exact ⟨by simp [isResolved, hout], List.Perm.refl _⟩
    | failed e =>
      simp only [findFinished, hout, Option.some.injEq, Prod.mk.injEq] at h
      obtain ⟨rfl, rfl⟩ := h
      exact ⟨by simp [isResolved, hout], List.Perm.refl _⟩

/-- A growth pass never adds a resolved session: the resolved part of the pool
is unchanged by `dns_lookup`. -/
theorem dns_lookup_filter_resolved (O : Oracle) (fuel : Nat) (st st' : KCState)
    (h : KeepConnected.dns_lookup O fuel st = some st') :
    st'.connections.filter isResolved = st.connections.filter isResolved := by
  obtain ⟨-, -, adds, hconn, hadds⟩ := dns_lookup_spec O fuel st st' h
  rw [hconn, List.filter_append]
  have hnil : adds.filter isResolved = [] := by
    rw [List.filter_eq_nil]
    intro a ha
    have hp := (hadds a ha).1
    simp [isResolved, hp]
  rw [hnil, List.append_nil]

/-- Invariant of the outer poll loop: whenever the poll finishes, the sessions
removed along the way are, as a multiset, exactly the accumulator plus the
resolved sessions of the starting pool, and on a Pending return every session
left in the pool is pending. -/
theorem poll_spec (O : Oracle) :
    ∀ fuel st removed r st' removed',
      KeepConnected.poll O fuel st removed = some (r, st', removed') →
      List.Perm removed' (removed ++ st.connections.filter isResolved) ∧
      (r = PollResult.pending → ∀ s ∈ st'.connections, s.outcome = SessionOutcome.pending) := by
  intro fuel
  induction fuel with
  | zero =>
    intro st removed r st' removed' h
    simp [KeepConnected.poll] at h
  | succ fuel ih =>
    intro st removed r st' removed' h
    cases hdl : KeepConnected.dns_lookup O (fuel + 1) st with
    | none =>
      simp only [KeepConnected.poll, KeepConnected.peers_from_db, hdl] at h
      exact Option.noConfusion h
    | some st1 =>
      simp only [KeepConnected.poll, KeepConnected.peers_from_db, hdl] at h
      have hfil := dns_lookup_filter_resolved O (fuel + 1) st st1 hdl
      by_cases hlen : st1.connections.length = 0
      · rw [if_pos hlen] at h
        simp only [Option.some.injEq, Prod.mk.injEq] at h
        obtain ⟨rfl, rfl, rfl⟩ := h
        have hc : st1.connections = [] := List.length_eq_zero.mp hlen
        have hnil : st.connections.filter isResolved = [] := by
          rw [← hfil, hc]
          rfl
        refine ⟨?_, ?_⟩
        · rw [hnil, List.append_nil]
        · intro hr
          cases hr
      · rw [if_neg hlen] at h
        cases hff : findFinished st1.connections with
        | none =>
          rw [hff] at h
          simp only [Option.some.injEq, Prod.mk.injEq] at h
          obtain ⟨rfl, rfl, rfl⟩ := h
          have hall := findFinished_eq_none hff
          refine ⟨?_, fun _ => hall⟩
          have hnil : st.connections.filter isResolved = [] := by
            rw [← hfil, List.filter_eq_nil]
            intro a ha
            simp [isResolved, hall a ha]
          rw [hnil, List.append_nil]
        | some p =>
          obtain ⟨i, s⟩ := p
          rw [hff] at h
          obtain ⟨hperm, hpend⟩ := ih _ _ _ _ _ h
          obtain ⟨hres, hpl⟩ := findFinished_eq_some hff
          refine ⟨?_, hpend⟩
          have h2 := hpl.filter isResolved
          simp only [List.filter_cons, hres, if_true] at h2
          have h3 : List.Perm ((removed ++ [s]) ++ (st1.connections.eraseIdx i).filter isResolved)
              (removed ++ st.connections.filter isResolved) := by
            rw [List.append_assoc, List.singleton_append, ← hfil]
            exact List.Perm.append_left removed h2.symm
          exact hperm.trans h3

/-- C6: whenever a maintenance pass of `KeepConnected::poll` finishes, the
sessions removed from the pool are, counted with multiplicity, exactly the
sessions that resolved (with the peer's address or with an error) — each
removed exactly once, none observed twice — and on a Pending return every
session still owned polled pending and stayed in the pool. -/
theorem c6_resolved_removed_exactly_once (O : Oracle) (fuel : Nat) (st : KCState)
    (r : PollResult) (st' : KCState) (removed : List Session)
    (h : KeepConnected.poll O fuel st [] = some (r, st', removed)) :
    List.Perm removed (st.connections.filter isResolved) ∧
    (r = PollResult.pending → ∀ s ∈ st'.connections, s.outcome = SessionOutcome.pending) := by
  obtain ⟨hperm, hpend⟩ := poll_spec O fuel st [] r st' removed h
  rw [List.nil_append] at hperm
  exact ⟨hperm, hpend⟩

/-- The oracle of a run in which every DNS query returns the single address 5. -/
def oracle6 : Oracle := { seed := fun _ => [5], rng := fun _ => 0 }

/-- A pool holding one session that resolved gracefully with address 9. -/
def st6 : KCState :=
  { minConnections := 1
    connections := [{ addr := 9, outcome := SessionOutcome.ready 9 }]
    dns := [], seedCount := 0, rngCount := 0 }

/-- C6 witness: the theorem applied to a concrete pass that drops the one
resolved session and replaces it with a fresh pending attempt. -/
theorem c6_resolved_removed_exactly_once_witness :
    List.Perm [({ addr := 9, outcome := SessionOutcome.ready 9 } : Session)]
        (st6.connections.filter isResolved) ∧
    (PollResult.pending = PollResult.pending →
      ∀ s ∈ (KCState.mk 1 [{ addr := 5, outcome := SessionOutcome.pending }] [5] 1 1).connections,
        s.outcome = SessionOutcome.pending) :=
  c6_resolved_removed_exactly_once oracle6 2 st6 PollResult.pending
    (KCState.mk 1 [{ addr := 5, outcome := SessionOutcome.pending }] [5] 1 1)
    [{ addr := 9, outcome := SessionOutcome.ready 9 }] (by decide)

/-! ## Claim C9: distribution of the random candidate pick -/

/-- Number of the 2 to the 64 equally likely generator outputs that make the
source's pick `self.dns[(rng.next_u64() as usize) % self.dns.len()]` choose
index `i` of a DNS list of length `L`. -/
def hitCount (L i : Nat) : Nat :=
  ((Finset.range (2 ^ 64)).filter (fun r => selectIdx r L = i)).card

/-- Closed form for how often a residue class is hit on an initial segment of
the naturals. -/
theorem card_range_filter_mod (L i N : Nat) (hL : 0 < L) (hi : i < L) :
    ((Finset.range N).filter (fun r => r % L = i)).card
      = N / L + if i < N % L then 1 else 0 := by
  induction N with
  | zero => simp
  | succ N ih =>
    have hm : N % L < L := Nat.mod_lt _ hL
    have h1 : N + 1 = (N % L + 1) + L * (N / L) := by
      conv_lhs => rw [← Nat.div_add_mod N L]
      ring
    have hmod : (N + 1) % L = (N % L + 1) % L := by
      rw [h1, Nat.add_mul_mod_self_left]
    have hdiv : (N + 1) / L = (N % L + 1) / L + N / L := by
      rw [h1, Nat.add_mul_div_left _ _ hL]
    have hnotmem : N ∉ (Finset.range N).filter (fun r => r % L = i) := by
      simp
    rw [Finset.range_succ, Finset.filter_insert]
    by_cases hc : N % L + 1 = L
    · have h2 : (N + 1) % L = 0 := by rw [hmod, hc, Nat.mod_self]
      have h3 : (N + 1) / L = 1 + N / L := by rw [hdiv, hc, Nat.div_self hL]
      by_cases hNi : N % L = i
      · rw [if_pos hNi, Finset.card_insert_of_not_mem hnotmem, ih, h2, h3, hNi]
        simp [Nat.add_comm]
      · rw [if_neg hNi, ih, h2, h3]
        have hilt : i < N % L := by
          have h5 : i < N % L + 1 := by rw [hc]; exact hi
          exact Nat.lt_of_le_of_ne (Nat.lt_succ_iff.mp h5) (fun he => hNi he.symm)
        rw [if_pos hilt]
        simp [Nat.add_comm]
    · have hlt : N % L + 1 < L := by omega
      have h2 : (N + 1) % L = N % L + 1 := by rw [hmod, Nat.mod_eq_of_lt hlt]
      have h3 : (N + 1) / L = N / L := by
        rw [hdiv, Nat.div_eq_of_lt hlt, Nat.zero_add]
      by_cases hNi : N % L = i
      · rw [if_pos hNi, Finset.card_insert_of_not_mem hnotmem, ih, h2, h3, hNi]
        rw [if_neg (Nat.lt_irrefl i), if_pos (Nat.lt_succ_self i)]
      · rw [if_neg hNi, ih, h2, h3]
        by_cases h6 : i < N % L
        · rw [if_pos h6, if_pos (Nat.lt_succ_of_lt h6)]
        · rw [if_neg h6, if_neg (fun h7 => h6
            (Nat.lt_of_le_of_ne (Nat.lt_succ_iff.mp h7) (fun h8 => hNi h8.symm)))]

/-- The exact hit distribution of the source's random pick: index `i` of a
list of length `L` is chosen for `2^64 / L` of the generator outputs, plus one
extra output when `i` is below the remainder `2^64 mod L`. -/
theorem hitCount_eq (L i : Nat) (hL : 0 < L) (hi : i < L) :
    hitCount L i = 2 ^ 64 / L + if i < 2 ^ 64 % L then 1 else 0 := by
  have hfc : ((Finset.range (2 ^ 64)).filter (fun r => selectIdx r L = i))
      = ((Finset.range (2 ^ 64)).filter (fun r => r % L = i)) := by
    apply Finset.filter_congr
    intro x hx
    have hxlt : x < 2 ^ 64 := Finset.mem_range.mp hx
    simp only [selectIdx]
    rw [Nat.mod_eq_of_lt hxlt]
  rw [hitCount, hfc]
  exact card_range_filter_mod L i (2 ^ 64) hL hi

/-- C9 counterexample: for a DNS list of length 3 the pick is NOT uniform:
since 3 does not divide 2 to the 64, index 0 is hit by one more generator
output than index 1, so the three addresses are not selected with equal
probability 1/3. -/
theorem c9_counterexample_len3_not_uniform : hitCount 3 0 ≠ hitCount 3 1 := by
  rw [hitCount_eq 3 0 (by norm_num) (by norm_num),
    hitCount_eq 3 1 (by norm_num) (by norm_num)]
  norm_num

/-- C9 (amended): modelling the 64-bit generator output as uniform, the pick
`dns[r % L]` is only near-uniform: index `i < L` is selected for exactly
`2^64 / L` outputs, plus one extra when `i < 2^64 mod L`.  All indices are
selected with probability within 2 to the minus 64 of `1/L`, and the
distribution is exactly uniform precisely when `L` divides 2 to the 64. -/
theorem c9_selection_near_uniform (L i : Nat) (hL : 0 < L) (hi : i < L) :
    hitCount L i = 2 ^ 64 / L + if i < 2 ^ 64 % L then 1 else 0 :=
  hitCount_eq L i hL hi

/-- C9 amended-claim witness: the theorem applied at a list of length 2, where
the pick is exactly uniform. -/
theorem c9_selection_near_uniform_witness :
    hitCount 2 1 = 2 ^ 64 / 2 + if 1 < 2 ^ 64 % 2 then 1 else 0 :=
  c9_selection_near_uniform 2 1 (by norm_num) (by norm_num)
